import Mathlib

/-!
Shallow embedding of the FundingMe crowdfunding program
(`programs/fundingme_dapp/src/lib.rs`): project creation, donation
accounting, and closure, together with the invariants of the project
state machine.
-/

/-- A Solana account identity (`Pubkey`), abstracted as a natural number
with decidable equality. -/
abbrev Pubkey := Nat

/-- Modelled from the spec: `status.rs` is not under `src/`; the spec lists
the statuses `Active`, `TargetReached` (used by `lib.rs`) and the future
terminal statuses `Successful`, `Failed`. -/
inductive ProjectStatus where
  | Active
  | TargetReached
  | Successful
  | Failed
  deriving DecidableEq, Repr

/-- Modelled from the spec: `errors.rs` is not under `src/`; the spec's
error kinds include `InvalidInput` and `InvalidProjectStatus`, the latter
being the only custom error `lib.rs` raises. -/
inductive CustomError where
  | invalidInput
  | invalidProjectStatus
  deriving DecidableEq, Repr

/-- One entry of the project's donator list (`Donator` in `lib.rs`):
the donor's identity and the cumulative amount donated (a `u64`). -/
structure Donator where
  user : Pubkey
  amount : Nat
  deriving DecidableEq, Repr

/-- The persisted project record (`ProjectAccount` in `lib.rs`).
`u64` fields are naturals kept below `2 ^ 64` by the checked arithmetic
of the operations. -/
structure ProjectAccount where
  owner : Pubkey
  name : String
  financial_target : Nat
  balance : Nat
  status : ProjectStatus
  donators : List Donator
  bump : Nat
  deriving DecidableEq, Repr

/-- `2 ^ 64`: the number of values of a `u64`. -/
def U64SIZE : Nat := 2 ^ 64

/-- The `create_project` handler body: initializes every field of the
fresh account; it performs no validation and cannot fail. -/
def create_project (caller : Pubkey) (name : String) (financial_target : Nat)
    (bump : Nat) : ProjectAccount :=
  { owner := caller
    name := name
    financial_target := financial_target
    balance := 0
    status := ProjectStatus.Active
    donators := []
    bump := bump }

/-- The donator-list update of `donate`: `iter_mut().find(|d| d.user ==
donator_key)` updates the first record of the caller in place
(`existing_donator.amount += amount`); otherwise a fresh record is pushed
at the end. The `u64` addition is checked (the workspace profile enables
overflow checks), so an overflowing update aborts the instruction,
modelled as `none`. -/
def addDonation (ds : List Donator) (u : Pubkey) (a : Nat) :
    Option (List Donator) :=
  match ds with
  | [] => some [{ user := u, amount := a }]
  | d :: rest =>
    if d.user = u then
      if d.amount + a < U64SIZE then
        some ({ user := d.user, amount := d.amount + a } :: rest)
      else
        none
    else
      (addDonation rest u a).map (fun tail => d :: tail)

/-- The `donate` handler. `transfer_ok` abstracts the outcome of the
system-program transfer `invoke`, which precedes all bookkeeping; a failed
transfer propagates with `?` before any field is touched. Then
`balance += amount` (checked `u64` addition), the donator-list update, and
the target check `balance >= financial_target` setting
`status = TargetReached`. Any failure aborts the whole instruction
(`none`): no partial state survives. -/
def donate (transfer_ok : Bool) (caller : Pubkey) (amount : Nat)
    (p : ProjectAccount) : Option ProjectAccount :=
  match transfer_ok with
  | false => none
  | true =>
    if U64SIZE ≤ p.balance + amount then
      none
    else
      match addDonation p.donators caller amount with
      | none => none
      | some ds =>
        let p1 : ProjectAccount :=
          { p with balance := p.balance + amount, donators := ds }
        some (if p1.financial_target ≤ p1.balance then
          { p1 with status := ProjectStatus.TargetReached }
        else
          p1)

/-- The `close_project` handler: accepts `Active` and `TargetReached`
(both branches are TODO stubs returning `Ok(())` without touching the
record) and rejects any other status with `InvalidProjectStatus`. -/
def close_project (p : ProjectAccount) :
    Except CustomError ProjectAccount :=
  if p.status = ProjectStatus.Active then
    Except.ok p
  else if p.status = ProjectStatus.TargetReached then
    Except.ok p
  else
    Except.error CustomError.invalidProjectStatus

/-- The `get_donator_count` handler: the length of the donator list. -/
def get_donator_count (p : ProjectAccount) : Nat :=
  p.donators.length

/-- The project state after a `donate` call, successful or not: a failed
instruction is rolled back by the runtime, so the pre-call record
persists. -/
def donateLedger (transfer_ok : Bool) (caller : Pubkey) (amount : Nat)
    (p : ProjectAccount) : ProjectAccount :=
  (donate transfer_ok caller amount p).getD p

/-- The project state after a `close_project` call, successful or not. -/
def closeLedger (p : ProjectAccount) : ProjectAccount :=
  match close_project p with
  | Except.ok q => q
  | Except.error _ => p

/-- Sum of the recorded cumulative donation amounts. -/
def sumAmounts (ds : List Donator) : Nat :=
  (ds.map Donator.amount).sum

/-- Project states reachable from `create_project` by successful `donate`
and `close_project` calls (`u64` arguments are below `2 ^ 64`). -/
inductive Reachable : ProjectAccount → Prop where
  | created (caller : Pubkey) (name : String) (financial_target bump : Nat)
      (ht : financial_target < U64SIZE) :
      Reachable (create_project caller name financial_target bump)
  | donated {p q : ProjectAccount} (t : Bool) (c : Pubkey) (a : Nat)
      (ha : a < U64SIZE) (hp : Reachable p) (hd : donate t c a p = some q) :
      Reachable q
  | closed {p q : ProjectAccount} (hp : Reachable p)
      (hc : close_project p = Except.ok q) :
      Reachable q

/-- One observed call against the project record: a `donate` or a
`close_project`, successful or failed (a failed call leaves the
pre-call record). -/
inductive Step : ProjectAccount → ProjectAccount → Prop where
  | donated (t : Bool) (c : Pubkey) (a : Nat) (p : ProjectAccount) :
      Step p (donateLedger t c a p)
  | closed (p : ProjectAccount) : Step p (closeLedger p)

/-- Borsh-serialized size of a `ProjectAccount` plus Anchor's 8-byte
account discriminator: 32-byte `owner`, length-prefixed `name` bytes, two
`u64`s (`financial_target`, `balance`), a 1-byte status tag, the
length-prefixed donator list (32 + 8 bytes per record), and the 1-byte
`bump`. -/
def projectSerializedSize (p : ProjectAccount) : Nat :=
  8 + 32 + (4 + p.name.utf8ByteSize) + 8 + 8 + 1
    + (4 + 40 * p.donators.length) + 1

/-- The account space reserved by the `CreateProject` context
(`space = 5000`). -/
def PROJECT_SPACE : Nat := 5000

/-- An instruction error: either one of the program's custom errors or
the Anchor framework's account-serialization failure. -/
inductive ProgramError where
  | custom (e : CustomError)
  | accountDidNotSerialize
  deriving DecidableEq, Repr

/-- The full `create_project` instruction. The handler body never fails;
after it returns, Anchor serializes the account into the `space = 5000`
bytes reserved by the `CreateProject` context, and when the record does
not fit the instruction fails with the framework's serialization error
and the account is rolled back. -/
def create_project_ix (caller : Pubkey) (name : String)
    (financial_target : Nat) (bump : Nat) :
    Except ProgramError ProjectAccount :=
  let p := create_project caller name financial_target bump
  if projectSerializedSize p ≤ PROJECT_SPACE then
    Except.ok p
  else
    Except.error ProgramError.accountDidNotSerialize

/-- The invariant maintained along every reachable project state:
balance consistency, donor uniqueness, the `u64` bound on the balance,
and soundness of the `TargetReached` status. -/
def ProjectInv (p : ProjectAccount) : Prop :=
  p.balance = sumAmounts p.donators
  ∧ (p.donators.map Donator.user).Nodup
  ∧ p.balance < U64SIZE
  ∧ (p.status = ProjectStatus.TargetReached →
      p.financial_target ≤ p.balance)

/-! ### Helper lemmas on the donator-list update -/

lemma addDonation_sum {ds ds' : List Donator} {u : Pubkey} {a : Nat}
    (h : addDonation ds u a = some ds') :
    sumAmounts ds' = sumAmounts ds + a := by
  induction ds generalizing ds' with
  | nil =>
    simp only [addDonation, Option.some.injEq] at h
    subst h
    simp [sumAmounts]
  | cons d rest ih =>
    simp only [addDonation] at h
    by_cases hu : d.user = u
    · rw [if_pos hu] at h
      by_cases hov : d.amount + a < U64SIZE
      · rw [if_pos hov, Option.some.injEq] at h
        subst h
        simp [sumAmounts]
        omega
      · rw [if_neg hov] at h
        exact absurd h (by simp)
    · rw [if_neg hu] at h
      rcases Option.map_eq_some'.mp h with ⟨tail, htail, hds⟩
      subst hds
      have := ih htail
      simp [sumAmounts] at this ⊢
      omega

lemma addDonation_not_mem {ds : List Donator} {u : Pubkey} {a : Nat}
    (h : u ∉ ds.map Donator.user) :
    addDonation ds u a = some (ds ++ [{ user := u, amount := a }]) := by
  induction ds with
  | nil => rfl
  | cons d rest ih =>
    simp only [List.map_cons, List.mem_cons] at h
    push_neg at h
    have hdu : ¬ d.user = u := fun hh => h.1 hh.symm
    simp only [addDonation, if_neg hdu, ih h.2, Option.map_some']
    simp

lemma addDonation_users {ds ds' : List Donator} {u : Pubkey} {a : Nat}
    (h : addDonation ds u a = some ds') :
    (u ∈ ds.map Donator.user ∧ ds'.map Donator.user = ds.map Donator.user)
    ∨ (u ∉ ds.map Donator.user
        ∧ ds'.map Donator.user = ds.map Donator.user ++ [u]) := by
  induction ds generalizing ds' with
  | nil =>
    simp only [addDonation, Option.some.injEq] at h
    subst h
    simp
  | cons d rest ih =>
    simp only [addDonation] at h
    by_cases hu : d.user = u
    · rw [if_pos hu] at h
      by_cases hov : d.amount + a < U64SIZE
      · rw [if_pos hov, Option.some.injEq] at h
        subst h
        left
        simp [hu]
      · rw [if_neg hov] at h
        exact absurd h (by simp)
    · rw [if_neg hu] at h
      rcases Option.map_eq_some'.mp h with ⟨tail, htail, hds⟩
      subst hds
      rcases ih htail with ⟨hmem, heq⟩ | ⟨hmem, heq⟩
      · left
        simp [heq, hmem]
      · right
        constructor
        · simp only [List.map_cons, List.mem_cons]
          push_neg
          exact ⟨fun hc => hu hc.symm, hmem⟩
        · simp [heq]

lemma addDonation_mem {ds : List Donator} {u : Pubkey} {a : Nat}
    (hnd : (ds.map Donator.user).Nodup) (hmem : u ∈ ds.map Donator.user)
    {ds' : List Donator} (h : addDonation ds u a = some ds') :
    ds' = ds.map (fun r =>
      if r.user = u then { user := r.user, amount := r.amount + a } else r) := by
  induction ds generalizing ds' with
  | nil => simp at hmem
  | cons d rest ih =>
    simp only [List.map_cons, List.nodup_cons] at hnd
    simp only [addDonation] at h
    by_cases hu : d.user = u
    · rw [if_pos hu] at h
      by_cases hov : d.amount + a < U64SIZE
      · rw [if_pos hov, Option.some.injEq] at h
        subst h
        have hrest : rest.map (fun r =>
            if r.user = u then { user := r.user, amount := r.amount + a } else r)
            = rest := by
          have hcongr : ∀ r ∈ rest,
              (if r.user = u then { user := r.user, amount := r.amount + a }
               else r) = id r := by
            intro r hr
            rw [if_neg, id]
            intro hru
            exact hnd.1 (hu ▸ hru ▸ (List.mem_map_of_mem Donator.user hr))
          rw [List.map_congr_left hcongr, List.map_id]
        simp [hu, hrest]
      · rw [if_neg hov] at h
        exact absurd h (by simp)
    · rw [if_neg hu] at h
      rcases Option.map_eq_some'.mp h with ⟨tail, htail, hds⟩
      subst hds
      have hmem' : u ∈ rest.map Donator.user := by
        rcases List.mem_cons.mp hmem with hcase | hcase
        · exact absurd hcase.symm hu
        · exact hcase
      rw [ih hnd.2 hmem' htail]
      simp [hu]

lemma addDonation_isSome_of_lt {ds : List Donator} {u : Pubkey} {a : Nat}
    (hlt : ∀ d ∈ ds, d.amount + a < U64SIZE) :
    ∃ ds', addDonation ds u a = some ds' := by
  induction ds with
  | nil => exact ⟨_, rfl⟩
  | cons d rest ih =>
    by_cases hu : d.user = u
    · subst hu
      refine ⟨{ user := d.user, amount := d.amount + a } :: rest, ?_⟩
      simp [addDonation, hlt d (by simp)]
    · rcases ih (fun x hx => hlt x (by simp [hx])) with ⟨tail, htail⟩
      exact ⟨d :: tail, by simp [addDonation, hu, htail]⟩

/-! ### Helper lemmas on the handlers -/

lemma donate_some_spec {t : Bool} {c : Pubkey} {a : Nat}
    {p q : ProjectAccount} (h : donate t c a p = some q) :
    t = true
    ∧ p.balance + a < U64SIZE
    ∧ ∃ ds, addDonation p.donators c a = some ds
        ∧ q.owner = p.owner ∧ q.name = p.name
        ∧ q.financial_target = p.financial_target ∧ q.bump = p.bump
        ∧ q.balance = p.balance + a ∧ q.donators = ds
        ∧ q.status = (if p.financial_target ≤ p.balance + a then
            ProjectStatus.TargetReached else p.status) := by
  cases t with
  | false => exact absurd h (by simp [donate])
  | true =>
    simp only [donate] at h
    by_cases hov : U64SIZE ≤ p.balance + a
    · rw [if_pos hov] at h
      exact absurd h (by simp)
    · rw [if_neg hov] at h
      refine ⟨rfl, by omega, ?_⟩
      cases hds : addDonation p.donators c a with
      | none => rw [hds] at h; exact absurd h (by simp)
      | some ds =>
        rw [hds, Option.some.injEq] at h
        refine ⟨ds, rfl, ?_⟩
        by_cases htgt : p.financial_target ≤ p.balance + a
        · rw [if_pos htgt] at h
          subst h
          simp [htgt]
        · rw [if_neg htgt] at h
          subst h
          simp [htgt]

lemma close_ok_eq {p q : ProjectAccount}
    (h : close_project p = Except.ok q) : q = p := by
  simp only [close_project] at h
  by_cases h1 : p.status = ProjectStatus.Active
  · rw [if_pos h1] at h
    exact (Except.ok.injEq _ _ ▸ h).symm
  · rw [if_neg h1] at h
    by_cases h2 : p.status = ProjectStatus.TargetReached
    · rw [if_pos h2] at h
      exact (Except.ok.injEq _ _ ▸ h).symm
    · rw [if_neg h2] at h
      exact absurd h (by simp)

lemma closeLedger_eq (p : ProjectAccount) : closeLedger p = p := by
  unfold closeLedger
  cases hc : close_project p with
  | ok q => exact close_ok_eq hc
  | error e => rfl

/-! ### The state-machine invariant -/

lemma reachable_inv {p : ProjectAccount} (hp : Reachable p) : ProjectInv p := by
  induction hp with
  | created caller name financial_target bump ht =>
    refine ⟨rfl, List.nodup_nil, ?_, ?_⟩
    · show (0 : Nat) < U64SIZE
      decide
    · intro h
      exact absurd h (by simp [create_project])
  | @donated p0 q0 t c a ha hp hd ih =>
    rcases donate_some_spec hd with
      ⟨-, hov, ds, hds, -, -, hft, -, hbal, hdl, hst⟩
    obtain ⟨ihsum, ihnd, ihlt, ihtgt⟩ := ih
    refine ⟨?_, ?_, ?_, ?_⟩
    · rw [hbal, hdl, addDonation_sum hds, ihsum]
    · rw [hdl]
      rcases addDonation_users hds with ⟨-, heq⟩ | ⟨hmem, heq⟩
      · rw [heq]; exact ihnd
      · rw [heq, List.nodup_append]
        refine ⟨ihnd, List.nodup_singleton c, fun x hx hxc => ?_⟩
        rw [List.mem_singleton] at hxc
        exact hmem (hxc ▸ hx)
    · rw [hbal]; exact hov
    · intro hq
      rw [hst] at hq
      rw [hft, hbal]
      by_cases htgt : p0.financial_target ≤ p0.balance + a
      · exact htgt
      · rw [if_neg htgt] at hq
        exact Nat.le_trans (ihtgt hq) (Nat.le_add_right _ _)
  | closed hp hc ih =>
    rw [close_ok_eq hc]
    exact ih

lemma filter_user_length_le_one {ds : List Donator}
    (hnd : (ds.map Donator.user).Nodup) (d : Pubkey) :
    (ds.filter (fun r => r.user = d)).length ≤ 1 := by
  induction ds with
  | nil => simp
  | cons x rest ih =>
    simp only [List.map_cons, List.nodup_cons] at hnd
    by_cases hx : x.user = d
    · have hrest : rest.filter (fun r => r.user = d) = [] := by
        rw [List.filter_eq_nil_iff]
        intro r hr
        simp only [decide_eq_true_eq]
        intro hrd
        exact hnd.1 (hx ▸ hrd ▸ (List.mem_map_of_mem Donator.user hr))
      simp [List.filter_cons, hx, hrest]
    · simpa [List.filter_cons, hx] using ih hnd.2

lemma donateLedger_frame (t : Bool) (c : Pubkey) (a : Nat)
    (p : ProjectAccount) :
    (donateLedger t c a p).owner = p.owner
    ∧ (donateLedger t c a p).name = p.name
    ∧ (donateLedger t c a p).financial_target = p.financial_target
    ∧ (donateLedger t c a p).bump = p.bump := by
  unfold donateLedger
  cases hd : donate t c a p with
  | none => exact ⟨rfl, rfl, rfl, rfl⟩
  | some q =>
    rcases donate_some_spec hd with ⟨-, -, ds, -, ho, hn, hft, hb, -⟩
    exact ⟨ho, hn, hft, hb⟩

lemma donateLedger_status_preserved {p : ProjectAccount}
    (h : p.status = ProjectStatus.TargetReached) (t : Bool) (c : Pubkey)
    (a : Nat) :
    (donateLedger t c a p).status = ProjectStatus.TargetReached := by
  unfold donateLedger
  cases hd : donate t c a p with
  | none => exact h
  | some q =>
    rcases donate_some_spec hd with ⟨-, -, ds, -, -, -, -, -, -, -, hst⟩
    show q.status = _
    rw [hst]
    by_cases htgt : p.financial_target ≤ p.balance + a
    · rw [if_pos htgt]
    · rw [if_neg htgt]; exact h

lemma utf8_go_replicate (n : Nat) (c : Char) :
    String.utf8ByteSize.go (List.replicate n c) = n * c.utf8Size := by
  induction n with
  | zero =>
    rw [List.replicate_zero, Nat.zero_mul]
    rfl
  | succ k ih =>
    rw [List.replicate_succ]
    show String.utf8ByteSize.go (List.replicate k c) + c.utf8Size = _
    rw [ih, Nat.succ_mul]

lemma utf8_replicate (n : Nat) (c : Char) :
    (String.mk (List.replicate n c)).utf8ByteSize = n * c.utf8Size :=
  utf8_go_replicate n c

lemma projectSerializedSize_create (caller : Pubkey) (s : String)
    (ft bump : Nat) :
    projectSerializedSize (create_project caller s ft bump)
      = 66 + s.utf8ByteSize := by
  show 8 + 32 + (4 + s.utf8ByteSize) + 8 + 8 + 1
      + (4 + 40 * ([] : List Donator).length) + 1 = 66 + s.utf8ByteSize
  rw [List.length_nil]
  omega

/-! ### The claims -/

/-- Claim C1: for every sequence of successful `donate` calls applied to a
project freshly created by `create_project`, the project's balance equals
the sum of the `amount` fields of all records in its `donators` list. -/
theorem claim_C1_balance_consistency {p : ProjectAccount}
    (hp : Reachable p) : p.balance = sumAmounts p.donators :=
  (reachable_inv hp).1

theorem claim_C1_witness :
    (ProjectAccount.mk 1 "bike" 100 40 ProjectStatus.Active
      [{ user := 2, amount := 40 }] 7).balance
    = sumAmounts (ProjectAccount.mk 1 "bike" 100 40 ProjectStatus.Active
      [{ user := 2, amount := 40 }] 7).donators :=
  claim_C1_balance_consistency
    (Reachable.donated true 2 40 (by decide)
      (Reachable.created 1 "bike" 100 7 (by decide)) (by decide))

/-- Claim C2: in every reachable project state, each donor identity has at
most one record in `donators`; a `donate` by an already-recorded donor
updates that record's amount in place, while a first `donate` by a donor
appends a fresh record at the end of the list. -/
theorem claim_C2_donor_uniqueness {p : ProjectAccount} (hp : Reachable p) :
    (∀ d : Pubkey, (p.donators.filter (fun r => r.user = d)).length ≤ 1)
    ∧ ∀ t : Bool, ∀ c : Pubkey, ∀ a : Nat, ∀ q : ProjectAccount,
        donate t c a p = some q →
        (c ∈ p.donators.map Donator.user →
          q.donators = p.donators.map (fun r =>
            if r.user = c then { user := r.user, amount := r.amount + a }
            else r))
        ∧ (c ∉ p.donators.map Donator.user →
          q.donators = p.donators ++ [{ user := c, amount := a }]) := by
  obtain ⟨-, hnd, -, -⟩ := reachable_inv hp
  refine ⟨fun d => filter_user_length_le_one hnd d, ?_⟩
  intro t c a q hd
  rcases donate_some_spec hd with ⟨-, -, ds, hds, -, -, -, -, -, hdl, -⟩
  constructor
  · intro hmem
    rw [hdl]
    exact addDonation_mem hnd hmem hds
  · intro hmem
    have hap := addDonation_not_mem (u := c) (a := a) hmem
    rw [hds, Option.some.injEq] at hap
    rw [hdl, hap]

theorem claim_C2_witness :
    ((ProjectAccount.mk 1 "bike" 100 40 ProjectStatus.Active
        [{ user := 2, amount := 40 }] 7).donators.filter
        (fun r => r.user = 2)).length ≤ 1
    ∧ (ProjectAccount.mk 1 "bike" 100 45 ProjectStatus.Active
        [{ user := 2, amount := 45 }] 7).donators
      = (ProjectAccount.mk 1 "bike" 100 40 ProjectStatus.Active
        [{ user := 2, amount := 40 }] 7).donators.map (fun r =>
          if r.user = 2 then { user := r.user, amount := r.amount + 5 }
          else r) := by
  have h := claim_C2_donor_uniqueness
    (p := ProjectAccount.mk 1 "bike" 100 40 ProjectStatus.Active
      [{ user := 2, amount := 40 }] 7)
    (Reachable.donated true 2 40 (by decide)
      (Reachable.created 1 "bike" 100 7 (by decide)) (by decide))
  exact ⟨h.1 2,
    (h.2 true 2 5 (ProjectAccount.mk 1 "bike" 100 45 ProjectStatus.Active
      [{ user := 2, amount := 45 }] 7) (by decide)).1 (by decide)⟩

/-- Claim C3 (counterexample): immediately after `create_project` with
`financial_target = 0`, the balance `0` already meets the target but the
status is `Active`, so the claimed biconditional fails. -/
theorem claim_C3_counterexample :
    ¬ ((create_project 0 "x" 0 0).status = ProjectStatus.TargetReached ↔
        (create_project 0 "x" 0 0).financial_target
          ≤ (create_project 0 "x" 0 0).balance) := by
  decide

/-- Claim C3 (amended): the biconditional `status = TargetReached ↔
balance ≥ financial_target` holds after every successful `donate` from a
reachable state; immediately after `create_project` the status is
`Active` unconditionally, so there the biconditional holds exactly when
`financial_target > 0`. -/
theorem claim_C3_amended_target_iff :
    (∀ p q : ProjectAccount, ∀ t : Bool, ∀ c : Pubkey, ∀ a : Nat,
      Reachable p → donate t c a p = some q →
      (q.status = ProjectStatus.TargetReached ↔
        q.financial_target ≤ q.balance))
    ∧ (∀ caller : Pubkey, ∀ name : String, ∀ ft bump : Nat, 0 < ft →
      ((create_project caller name ft bump).status
          = ProjectStatus.TargetReached ↔
        (create_project caller name ft bump).financial_target
          ≤ (create_project caller name ft bump).balance)) := by
  constructor
  · intro p q t c a hp hd
    obtain ⟨-, -, -, ihtgt⟩ := reachable_inv hp
    rcases donate_some_spec hd with ⟨-, -, ds, -, -, -, hft, -, hbal, -, hst⟩
    constructor
    · intro hq
      rw [hst] at hq
      rw [hft, hbal]
      by_cases htgt : p.financial_target ≤ p.balance + a
      · exact htgt
      · rw [if_neg htgt] at hq
        exact Nat.le_trans (ihtgt hq) (Nat.le_add_right _ _)
    · intro hle
      rw [hft, hbal] at hle
      rw [hst, if_pos hle]
  · intro caller name ft bump h0
    have hs : (create_project caller name ft bump).status
        = ProjectStatus.Active := rfl
    have hb : (create_project caller name ft bump).balance = 0 := rfl
    have htg : (create_project caller name ft bump).financial_target
        = ft := rfl
    rw [hs, hb, htg]
    constructor
    · intro h
      exact absurd h (by decide)
    · intro h
      exact absurd h (by omega)

theorem claim_C3_witness :
    ((ProjectAccount.mk 1 "bike" 100 40 ProjectStatus.Active
        [{ user := 2, amount := 40 }] 7).status
        = ProjectStatus.TargetReached ↔
      (ProjectAccount.mk 1 "bike" 100 40 ProjectStatus.Active
        [{ user := 2, amount := 40 }] 7).financial_target
        ≤ (ProjectAccount.mk 1 "bike" 100 40 ProjectStatus.Active
          [{ user := 2, amount := 40 }] 7).balance)
    ∧ ((create_project 0 "y" 5 0).status = ProjectStatus.TargetReached ↔
      (create_project 0 "y" 5 0).financial_target
        ≤ (create_project 0 "y" 5 0).balance) :=
  ⟨claim_C3_amended_target_iff.1 (create_project 1 "bike" 100 7)
      (ProjectAccount.mk 1 "bike" 100 40 ProjectStatus.Active
        [{ user := 2, amount := 40 }] 7) true 2 40
      (Reachable.created 1 "bike" 100 7 (by decide)) (by decide),
    claim_C3_amended_target_iff.2 0 "y" 5 0 (by decide)⟩

/-- Claim C4: `close_project` fails with `InvalidProjectStatus` exactly
when the status is neither `Active` nor `TargetReached`, and in every
case — error or success — the project record is returned unchanged. -/
theorem claim_C4_closure_guard (p : ProjectAccount) :
    (close_project p = Except.error CustomError.invalidProjectStatus ↔
      (p.status ≠ ProjectStatus.Active
        ∧ p.status ≠ ProjectStatus.TargetReached))
    ∧ ((p.status = ProjectStatus.Active
        ∨ p.status = ProjectStatus.TargetReached) →
      close_project p = Except.ok p)
    ∧ closeLedger p = p := by
  refine ⟨?_, ?_, closeLedger_eq p⟩
  · cases hs : p.status <;> simp [close_project, hs]
  · cases hs : p.status <;> simp [close_project, hs]

theorem claim_C4_witness :
    close_project (ProjectAccount.mk 0 "x" 5 0 ProjectStatus.Failed [] 0)
      = Except.error CustomError.invalidProjectStatus :=
  (claim_C4_closure_guard
    (ProjectAccount.mk 0 "x" 5 0 ProjectStatus.Failed [] 0)).1.mpr
    (by decide)

/-- Claim C5: when the value transfer inside `donate` fails, the call
fails and the resulting ledger state — balance, donators list and status
— is exactly the pre-call record: the transfer precedes all
bookkeeping, so no partial mutation is observable. -/
theorem claim_C5_atomicity (c : Pubkey) (a : Nat) (p : ProjectAccount) :
    donate false c a p = none
    ∧ donateLedger false c a p = p
    ∧ (donateLedger false c a p).balance = p.balance
    ∧ (donateLedger false c a p).donators = p.donators
    ∧ (donateLedger false c a p).status = p.status :=
  ⟨rfl, rfl, rfl, rfl, rfl⟩

/-- Claim C6: a successful `create_project` produces a record whose owner
is the caller, whose name and financial target are the given arguments,
with balance `0`, status `Active` and an empty donators list, and reads
observe exactly these values. -/
theorem claim_C6_create_init (caller : Pubkey) (name : String)
    (financial_target bump : Nat) :
    (create_project caller name financial_target bump).owner = caller
    ∧ (create_project caller name financial_target bump).name = name
    ∧ (create_project caller name financial_target bump).financial_target
      = financial_target
    ∧ (create_project caller name financial_target bump).balance = 0
    ∧ (create_project caller name financial_target bump).status
      = ProjectStatus.Active
    ∧ (create_project caller name financial_target bump).donators = []
    ∧ get_donator_count (create_project caller name financial_target bump)
      = 0 :=
  ⟨rfl, rfl, rfl, rfl, rfl, rfl, rfl⟩

/-- Claim C7 (counterexample): creating a project whose name is 4935
bytes long makes the serialized record exceed the 5000-byte space, and
the instruction fails with the framework's serialization error — not
with `InvalidInput`. -/
theorem claim_C7_counterexample :
    create_project_ix 0 (String.mk (List.replicate 4935 'a')) 10 0
      = Except.error ProgramError.accountDidNotSerialize
    ∧ (Except.error ProgramError.accountDidNotSerialize :
        Except ProgramError ProjectAccount)
      ≠ Except.error (ProgramError.custom CustomError.invalidInput) := by
  constructor
  · have hsz : projectSerializedSize
        (create_project 0 (String.mk (List.replicate 4935 'a')) 10 0)
        = 5001 := by
      rw [projectSerializedSize_create, utf8_replicate]
      decide
    simp only [create_project_ix]
    rw [hsz]
    rfl
  · simp

/-- Claim C7 (amended): the `create_project` handler performs no input
validation and the instruction never raises a custom error such as
`InvalidInput`; when the serialized record exceeds the 5000-byte space
reserved at `init`, the instruction fails with the framework's
account-serialization error and the record is not created, and otherwise
it succeeds with the freshly initialized record (`financial_target` is a
`u64` and cannot be malformed at the handler). -/
theorem claim_C7_no_invalid_input (caller : Pubkey) (name : String)
    (financial_target bump : Nat) :
    (projectSerializedSize
        (create_project caller name financial_target bump) ≤ PROJECT_SPACE →
      create_project_ix caller name financial_target bump
        = Except.ok (create_project caller name financial_target bump))
    ∧ (PROJECT_SPACE < projectSerializedSize
        (create_project caller name financial_target bump) →
      create_project_ix caller name financial_target bump
        = Except.error ProgramError.accountDidNotSerialize)
    ∧ ∀ e : CustomError,
        create_project_ix caller name financial_target bump
          ≠ Except.error (ProgramError.custom e) := by
  refine ⟨?_, ?_, ?_⟩
  · intro h
    simp only [create_project_ix]
    rw [if_pos h]
  · intro h
    simp only [create_project_ix]
    rw [if_neg (Nat.not_le.mpr h)]
  · intro e
    simp only [create_project_ix]
    by_cases h : projectSerializedSize
        (create_project caller name financial_target bump) ≤ PROJECT_SPACE
    · rw [if_pos h]
      intro hc
      exact absurd hc (by simp)
    · rw [if_neg h]
      intro hc
      exact absurd hc (by simp)

theorem claim_C7_witness :
    create_project_ix 1 "bike" 100 7
      = Except.ok (create_project 1 "bike" 100 7)
    ∧ create_project_ix 0 (String.mk (List.replicate 4935 'b')) 10 0
      = Except.error ProgramError.accountDidNotSerialize := by
  have hsz : projectSerializedSize
      (create_project 0 (String.mk (List.replicate 4935 'b')) 10 0)
      = 5001 := by
    rw [projectSerializedSize_create, utf8_replicate]
    decide
  refine ⟨(claim_C7_no_invalid_input 1 "bike" 100 7).1 ?_,
    (claim_C7_no_invalid_input 0 (String.mk (List.replicate 4935 'b'))
      10 0).2.1 (by rw [hsz]; decide)⟩
  rw [projectSerializedSize_create]
  decide

/-- Claim C8: along any sequence of `donate` and `close_project` calls
(successful or failed) starting from a reachable state whose status is
`TargetReached`, the status stays `TargetReached` and never becomes
`Active` again. -/
theorem claim_C8_target_monotone {p q : ProjectAccount}
    (_hp : Reachable p) (hts : p.status = ProjectStatus.TargetReached)
    (ht : Relation.ReflTransGen Step p q) :
    q.status = ProjectStatus.TargetReached
    ∧ q.status ≠ ProjectStatus.Active := by
  have hmain : q.status = ProjectStatus.TargetReached := by
    induction ht with
    | refl => exact hts
    | tail hstep hlast ih =>
      cases hlast with
      | donated t c a pmid => exact donateLedger_status_preserved ih t c a
      | closed pmid => rw [closeLedger_eq]; exact ih
  refine ⟨hmain, ?_⟩
  rw [hmain]
  decide

theorem claim_C8_witness :
    (donateLedger true 3 5 (ProjectAccount.mk 1 "bike" 40 40
        ProjectStatus.TargetReached [{ user := 2, amount := 40 }] 7)).status
      = ProjectStatus.TargetReached
    ∧ (donateLedger true 3 5 (ProjectAccount.mk 1 "bike" 40 40
        ProjectStatus.TargetReached [{ user := 2, amount := 40 }] 7)).status
      ≠ ProjectStatus.Active :=
  claim_C8_target_monotone
    (Reachable.donated true 2 40 (by decide)
      (Reachable.created 1 "bike" 40 7 (by decide)) (by decide))
    (by decide)
    (Relation.ReflTransGen.single (Step.donated true 3 5
      (ProjectAccount.mk 1 "bike" 40 40 ProjectStatus.TargetReached
        [{ user := 2, amount := 40 }] 7)))

/-- Claim C9: a `donate` or `close_project` call, whether it succeeds or
fails, leaves the project's `owner`, `name` and `financial_target`
unchanged. -/
theorem claim_C9_frame (t : Bool) (c : Pubkey) (a : Nat)
    (p : ProjectAccount) :
    ((donateLedger t c a p).owner = p.owner
      ∧ (donateLedger t c a p).name = p.name
      ∧ (donateLedger t c a p).financial_target = p.financial_target)
    ∧ ((closeLedger p).owner = p.owner
      ∧ (closeLedger p).name = p.name
      ∧ (closeLedger p).financial_target = p.financial_target) := by
  obtain ⟨h1, h2, h3, -⟩ := donateLedger_frame t c a p
  rw [closeLedger_eq]
  exact ⟨⟨h1, h2, h3⟩, rfl, rfl, rfl⟩

/-- Claim C10: `donate` does not validate its amount: a zero-amount
donation with a successful transfer succeeds, leaves the balance
unchanged, appends a zero-amount record for a first-time caller, and
still re-evaluates the target check, so it sets `TargetReached` whenever
the balance already meets the target. -/
theorem claim_C10_zero_amount (c : Pubkey) (p : ProjectAccount)
    (hb : p.balance < U64SIZE)
    (hA : ∀ d ∈ p.donators, d.amount < U64SIZE) :
    (donate true c 0 p).isSome = true
    ∧ (donateLedger true c 0 p).balance = p.balance
    ∧ (c ∉ p.donators.map Donator.user →
        (donateLedger true c 0 p).donators
          = p.donators ++ [{ user := c, amount := 0 }])
    ∧ (p.financial_target ≤ p.balance →
        (donateLedger true c 0 p).status = ProjectStatus.TargetReached) := by
  rcases addDonation_isSome_of_lt (u := c) (a := 0)
    (fun d hd => by simpa using hA d hd) with ⟨ds, hds⟩
  have hov : ¬ U64SIZE ≤ p.balance + 0 := by omega
  have hq : ∃ q, donate true c 0 p = some q := by
    simp only [donate, if_neg hov, hds]
    exact ⟨_, rfl⟩
  obtain ⟨q, hdq⟩ := hq
  have hl : donateLedger true c 0 p = q := by
    unfold donateLedger
    rw [hdq]
    rfl
  rcases donate_some_spec hdq with
    ⟨-, -, ds0, hds0, -, -, -, -, hbal, hdl, hst⟩
  refine ⟨by rw [hdq]; rfl, ?_, ?_, ?_⟩
  · rw [hl, hbal]
    omega
  · intro hmem
    have hap := addDonation_not_mem (u := c) (a := 0) hmem
    rw [hds0, Option.some.injEq] at hap
    rw [hl, hdl, hap]
  · intro hle
    rw [hl, hst, if_pos (by omega)]

theorem claim_C10_witness :
    (donate true 5 0 (create_project 1 "bike" 0 7)).isSome = true
    ∧ (donateLedger true 5 0 (create_project 1 "bike" 0 7)).balance
      = (create_project 1 "bike" 0 7).balance
    ∧ (donateLedger true 5 0 (create_project 1 "bike" 0 7)).donators
      = (create_project 1 "bike" 0 7).donators
        ++ [{ user := 5, amount := 0 }]
    ∧ (donateLedger true 5 0 (create_project 1 "bike" 0 7)).status
      = ProjectStatus.TargetReached := by
  have h := claim_C10_zero_amount 5 (create_project 1 "bike" 0 7)
    (by decide) (by intro d hd; simp [create_project] at hd)
  exact ⟨h.1, h.2.1, h.2.2.1 (by decide), h.2.2.2 (by decide)⟩
